import Mathlib

set_option linter.unusedSectionVars false

/-!
Verification of the LRU cache in src/LRUCache.js.

The JavaScript cache couples a key index (a plain object mapping keys to
entry objects) with a doubly-linked recency chain threaded through the
entry objects.  We embed the mutable heap of entry objects as an arena:
a finite association list from numeric node identifiers to entries, with
the older/newer object references represented as optional identifiers.
Every operation of the source is translated into an explicit
state-passing function on this representation, following the source
statement by statement.
-/

namespace LRUCache

/-- Association-list lookup keyed by decidable equality, modelling
property access on a JavaScript object used as a map. -/
def alk {α β : Type} [DecidableEq α] : List (α × β) → α → Option β
  | [], _ => none
  | (a, b) :: l, x => if x = a then some b else alk l x

/-- Association-list deletion, modelling the JavaScript delete operator
on an object property: every binding for the key is removed. -/
def adel {α β : Type} [DecidableEq α] : List (α × β) → α → List (α × β)
  | [], _ => []
  | (a, b) :: l, x => if a = x then adel l x else (a, b) :: adel l x

/-- Association-list update, modelling property assignment on a
JavaScript object: the binding for the key is replaced. -/
def aset {α β : Type} [DecidableEq α] (l : List (α × β)) (x : α) (b : β) : List (α × β) :=
  (x, b) :: adel l x

/-- One cache entry, as built by createCacheEntry in the source: a key,
a value, and the two chain links, which are references to other entry
objects and are embedded as optional arena identifiers. -/
structure Entry (K V : Type) where
  key   : K
  value : V
  older : Option Nat
  newer : Option Nat
deriving DecidableEq

/-- The whole cache state set up by initLRU in the source, together with
the arena of entry objects (the portion of the JavaScript heap the cache
reaches) and a counter supplying fresh identifiers for new entries. -/
structure Cache (K V : Type) where
  maxSize : Nat
  size    : Nat
  index   : List (K × Nat)
  arena   : List (Nat × Entry K V)
  nextId  : Nat
  oldest  : Option Nat
  newest  : Option Nat
  hits    : Nat
  misses  : Nat
deriving DecidableEq

/-- The configuration object accepted by the factory: its maxSize
property may be absent or zero (the falsy numbers of the source) or a
positive integer. -/
structure Cfg where
  maxSize : Option Nat
deriving DecidableEq

/-- Arena lookup: dereference an entry-object identifier. -/
def arenaGet {K V : Type} (a : List (Nat × Entry K V)) (i : Nat) : Option (Entry K V) :=
  alk a i

/-- Assignment to the older field of the entry object at identifier i,
as in a statement entry.older = x of the source; a no-op on an
identifier with no entry, which never occurs in reachable states. -/
def setOlder {K V : Type} (a : List (Nat × Entry K V)) (i : Nat) (o : Option Nat) :
    List (Nat × Entry K V) :=
  match alk a i with
  | none => a
  | some e => aset a i { e with older := o }

/-- Assignment to the newer field of the entry object at identifier i. -/
def setNewer {K V : Type} (a : List (Nat × Entry K V)) (i : Nat) (n : Option Nat) :
    List (Nat × Entry K V) :=
  match alk a i with
  | none => a
  | some e => aset a i { e with newer := n }

/-- Effective capacity: the source computes config.maxSize with a
fallback of 4 when the option is absent or falsy. -/
def effMaxSize (cfg : Cfg) : Nat :=
  match cfg.maxSize with
  | none => 4
  | some 0 => 4
  | some (n + 1) => n + 1

/-- An empty cache with the given capacity: the field values assigned by
initLRU in the source. -/
def emptyCache (K V : Type) (m : Nat) : Cache K V :=
  { maxSize := m, size := 0, index := [], arena := [], nextId := 0,
    oldest := none, newest := none, hits := 0, misses := 0 }

/-- The initLRU function of the source. -/
def initLRU (K V : Type) (cfg : Cfg) : Cache K V :=
  emptyCache K V (effMaxSize cfg)

/-- The create factory of the source: it builds an object from the
cache prototype and calls initLRU on it only when a configuration
object was supplied; with no configuration the returned object is never
initialized, which we represent as none. -/
def create (K V : Type) (config : Option Cfg) : Option (Cache K V) :=
  match config with
  | none => none
  | some cfg => some (initLRU K V cfg)

variable {K V C : Type} [DecidableEq K]

/-- The get function of the source, returning the updated cache and the
returned value (none for undefined).  The three paths of the source are
reproduced: miss, entry already newest, and the unlink/append path, with
the field assignments performed in source order. -/
def get (c : Cache K V) (k : K) : Cache K V × Option V :=
  match alk c.index k with
  | none => ({ c with misses := c.misses + 1 }, none)
  | some i =>
    match arenaGet c.arena i with
    | none => (c, none)
    | some e =>
      if c.newest = some i then
        ({ c with hits := c.hits + 1 }, some e.value)
      else
        let s1 : Option Nat × List (Nat × Entry K V) :=
          match e.newer with
          | none => (c.oldest, c.arena)
          | some j =>
            ((if c.oldest = some i then some j else c.oldest),
             setOlder c.arena j e.older)
        let a2 : List (Nat × Entry K V) :=
          match e.older with
          | none => s1.2
          | some p => setNewer s1.2 p e.newer
        let a3 := setNewer a2 i none
        let a4 := setOlder a3 i c.newest
        let a5 :=
          match c.newest with
          | none => a4
          | some m => setNewer a4 m (some i)
        ({ c with arena := a5, oldest := s1.1, newest := some i,
                  hits := c.hits + 1 }, some e.value)

/-- The put function of the source, instrumented to return the full
removed entry (the removedEntry variable of the source) instead of just
its value; put below projects out the value the source returns.  The new
entry is created with older pointing at the previous newest, the index
is repointed, the chain head is advanced, and when the size already
equals maxSize the current oldest entry is unlinked and its key deleted
from the index, in source statement order. -/
def putCore (c : Cache K V) (k : K) (v : V) : Cache K V × Option (Entry K V) :=
  let nid := c.nextId
  let entry : Entry K V := ⟨k, v, c.newest, none⟩
  let index1 := aset c.index k nid
  let arena1 := aset c.arena nid entry
  let s2 : List (Nat × Entry K V) × Option Nat :=
    match c.newest with
    | some j => (setNewer arena1 j (some nid), c.oldest)
    | none => (arena1, some nid)
  if c.size = c.maxSize then
    match s2.2 with
    | none =>
      ({ c with index := index1, arena := s2.1, oldest := none, newest := some nid,
                nextId := nid + 1 }, none)
    | some rid =>
      match arenaGet s2.1 rid with
      | none =>
        ({ c with index := index1, arena := s2.1, oldest := some rid, newest := some nid,
                  nextId := nid + 1 }, none)
      | some re =>
        let arena3 :=
          match re.newer with
          | none => s2.1
          | some oid => setOlder s2.1 oid none
        let arena4 := setNewer arena3 rid none
        let arena5 := setOlder arena4 rid none
        ({ c with index := adel index1 re.key, arena := arena5, oldest := re.newer,
                  newest := some nid, nextId := nid + 1 }, some re)
  else
    ({ c with index := index1, arena := s2.1, oldest := s2.2, newest := some nid,
              size := c.size + 1, nextId := nid + 1 }, none)

/-- The put function as the caller sees it: the source returns
removedVal, the value of the removed entry, or undefined. -/
def put (c : Cache K V) (k : K) (v : V) : Cache K V × Option V :=
  ((putCore c k v).1, (putCore c k v).2.map Entry.value)

/-- A JavaScript value as observed from a cache method return: the
undefined sentinel, a plain stored value, or a reference to an entry
object identified by its arena identifier. -/
inductive JSValue (V : Type) where
  | undefined : JSValue V
  | value : V → JSValue V
  | entryRef : Nat → JSValue V
deriving DecidableEq

/-- The peek function of the source: it returns the content of the index
slot for the key, which is a reference to the entry object (not the
stored value), or undefined; the cache state is returned unchanged since
the source mutates nothing. -/
def peek (c : Cache K V) (k : K) : Cache K V × JSValue V :=
  (c, match alk c.index k with
      | none => JSValue.undefined
      | some i => JSValue.entryRef i)

/-- Resolution of an observed return against the heap: dereferencing an
entry reference yields the value field of that entry. -/
def resolveValue (c : Cache K V) : JSValue V → Option V
  | JSValue.undefined => none
  | JSValue.value v => some v
  | JSValue.entryRef i => (arenaGet c.arena i).map Entry.value

/-- The clearAll function of the source: counters and chain endpoints
are reset and the index object is replaced by a fresh empty one.  The
old entry objects stay in the heap (the arena) as unreachable garbage,
as they do in JavaScript. -/
def clearAll (c : Cache K V) : Cache K V :=
  { c with size := 0, hits := 0, misses := 0, oldest := none, newest := none,
           index := [] }

/-- The size accessor of the source. -/
def size (c : Cache K V) : Nat := c.size

/-- The hits accessor of the source. -/
def hits (c : Cache K V) : Nat := c.hits

/-- The misses accessor of the source. -/
def misses (c : Cache K V) : Nat := c.misses

/-- Chain walk collecting keys, newest to oldest, as the loop in the
keys function of the source; the fuel bounds the walk and is always
instantiated with the arena size, which the acyclic chain of any
reachable state never exhausts. -/
def chainKeys (a : List (Nat × Entry K V)) : Option Nat → Nat → List K
  | none, _ => []
  | some _, 0 => []
  | some i, fuel + 1 =>
    match arenaGet a i with
    | none => []
    | some e => e.key :: chainKeys a e.older fuel

/-- Chain walk collecting values, newest to oldest, as the loop in the
values function of the source. -/
def chainVals (a : List (Nat × Entry K V)) : Option Nat → Nat → List V
  | none, _ => []
  | some _, 0 => []
  | some i, fuel + 1 =>
    match arenaGet a i with
    | none => []
    | some e => e.value :: chainVals a e.older fuel

/-- Chain walk recording the visitor invocations made by the forEach
loop of the source: for each entry, one call carrying the bound receiver
(the supplied context when truthy, otherwise the default receiver,
embedded uniformly as the optional context) and the single argument
passed, namely the value field of the entry. -/
def chainCalls (a : List (Nat × Entry K V)) (ctx : Option C) :
    Option Nat → Nat → List (Option C × V)
  | none, _ => []
  | some _, 0 => []
  | some i, fuel + 1 =>
    match arenaGet a i with
    | none => []
    | some e => (ctx, e.value) :: chainCalls a ctx e.older fuel

/-- The keys function of the source. -/
def keys (c : Cache K V) : List K :=
  chainKeys c.arena c.newest c.arena.length

/-- The values function of the source. -/
def values (c : Cache K V) : List V :=
  chainVals c.arena c.newest c.arena.length

/-- The forEach function of the source, observed as its trace of
visitor invocations. -/
def forEach (c : Cache K V) (ctx : Option C) : List (Option C × V) :=
  chainCalls c.arena ctx c.newest c.arena.length

/-- One cache operation, for quantifying over operation sequences. -/
inductive Op (K V : Type) where
  | put (k : K) (v : V) : Op K V
  | get (k : K) : Op K V
  | peek (k : K) : Op K V
  | clear : Op K V
deriving DecidableEq

/-- The state transition of a single operation. -/
def step (c : Cache K V) : Op K V → Cache K V
  | Op.put k v => (putCore c k v).1
  | Op.get k => (get c k).1
  | Op.peek k => (peek c k).1
  | Op.clear => clearAll c

/-- Run a sequence of operations. -/
def run (c : Cache K V) : List (Op K V) → Cache K V
  | [] => c
  | op :: ops => run (step c op) ops

/-- Ghost transition: alongside the cache we maintain the association of
each key to its most recently put value, erased when an eviction removes
an entry carrying that key and on clear.  A key is present in the ghost
map exactly when it has a most recent insertion that has not been
evicted or cleared since. -/
def gstep (cg : Cache K V × List (K × V)) : Op K V → Cache K V × List (K × V)
  | Op.put k v =>
    let r := putCore cg.1 k v
    (r.1,
     match r.2 with
     | none => aset cg.2 k v
     | some re => adel (aset cg.2 k v) re.key)
  | Op.get k => ((get cg.1 k).1, cg.2)
  | Op.peek k => ((peek cg.1 k).1, cg.2)
  | Op.clear => (clearAll cg.1, [])

/-- Run a sequence of operations with the ghost map. -/
def runG (cg : Cache K V × List (K × V)) : List (Op K V) → Cache K V × List (K × V)
  | [] => cg
  | op :: ops => runG (gstep cg op) ops

/-- The value field of the entry object at an identifier, if any. -/
def valAt (a : List (Nat × Entry K V)) (i : Nat) : Option V :=
  (arenaGet a i).map Entry.value

/-- Whether an entry object lives at an identifier. -/
def liveAt (a : List (Nat × Entry K V)) (i : Nat) : Bool :=
  (arenaGet a i).isSome

/-- The association the cache currently realizes: the value reached by
following the index and then the entry reference, as get reports it. -/
def absMap (c : Cache K V) (k : K) : Option V :=
  (alk c.index k).bind (fun i => valAt c.arena i)

/-- Well-formedness of the heap bookkeeping: every identifier stored in
the index is below the fresh-identifier counter and dereferences to a
live entry object.  This holds in every reachable state. -/
def Inv (c : Cache K V) : Prop :=
  ∀ k i, alk c.index k = some i → i < c.nextId ∧ liveAt c.arena i = true

/-- Agreement of the ghost map with the realized associations. -/
def Sync (c : Cache K V) (g : List (K × V)) : Prop :=
  ∀ k, alk g k = absMap c k

/-! Association-list lemmas. -/

theorem alk_adel {α β : Type} [DecidableEq α] (l : List (α × β)) (x y : α) :
    alk (adel l x) y = if y = x then none else alk l y := by
  induction l with
  | nil => simp [adel, alk]
  | cons p l ih =>
    obtain ⟨a, b⟩ := p
    by_cases hy : y = x
    · subst hy
      by_cases ha : a = y
      · simp [adel, ha, ih]
      · have hya : y ≠ a := fun h => ha h.symm
        simp [adel, alk, ha, hya, ih]
    · by_cases ha : a = x
      · have hya : y ≠ a := by rw [ha]; exact hy
        simp [adel, alk, ha, hy, hya, ih]
      · by_cases hya : y = a
        · simp [adel, alk, ha, hya]
        · simp [adel, alk, ha, hy, hya, ih]

theorem alk_aset {α β : Type} [DecidableEq α] (l : List (α × β)) (x y : α) (b : β) :
    alk (aset l x b) y = if y = x then some b else alk l y := by
  by_cases hy : y = x <;> simp [aset, alk, hy, alk_adel]

theorem valAt_aset (a : List (Nat × Entry K V)) (i j : Nat) (e : Entry K V) :
    valAt (aset a i e) j = if j = i then some e.value else valAt a j := by
  by_cases h : j = i <;> simp [valAt, arenaGet, alk_aset, h]

theorem liveAt_aset (a : List (Nat × Entry K V)) (i j : Nat) (e : Entry K V) :
    liveAt (aset a i e) j = if j = i then true else liveAt a j := by
  by_cases h : j = i <;> simp [liveAt, arenaGet, alk_aset, h]

theorem valAt_setOlder (a : List (Nat × Entry K V)) (i : Nat) (o : Option Nat) (j : Nat) :
    valAt (setOlder a i o) j = valAt a j := by
  unfold setOlder
  cases h : alk a i with
  | none => rfl
  | some e =>
    rw [valAt_aset]
    by_cases hj : j = i
    · subst hj
      simp [valAt, arenaGet, h]
    · simp [hj]

theorem valAt_setNewer (a : List (Nat × Entry K V)) (i : Nat) (n : Option Nat) (j : Nat) :
    valAt (setNewer a i n) j = valAt a j := by
  unfold setNewer
  cases h : alk a i with
  | none => rfl
  | some e =>
    rw [valAt_aset]
    by_cases hj : j = i
    · subst hj
      simp [valAt, arenaGet, h]
    · simp [hj]

theorem liveAt_setOlder (a : List (Nat × Entry K V)) (i : Nat) (o : Option Nat) (j : Nat) :
    liveAt (setOlder a i o) j = liveAt a j := by
  unfold setOlder
  cases h : alk a i with
  | none => rfl
  | some e =>
    rw [liveAt_aset]
    by_cases hj : j = i
    · subst hj
      simp [liveAt, arenaGet, h]
    · simp [hj]

theorem liveAt_setNewer (a : List (Nat × Entry K V)) (i : Nat) (n : Option Nat) (j : Nat) :
    liveAt (setNewer a i n) j = liveAt a j := by
  unfold setNewer
  cases h : alk a i with
  | none => rfl
  | some e =>
    rw [liveAt_aset]
    by_cases hj : j = i
    · subst hj
      simp [liveAt, arenaGet, h]
    · simp [hj]

/-! Behavior of get. -/

theorem get_snd (c : Cache K V) (k : K) : (get c k).2 = absMap c k := by
  unfold get absMap
  cases h : alk c.index k with
  | none => simp
  | some i =>
    cases ha : arenaGet c.arena i with
    | none => simp [valAt, ha]
    | some e =>
      by_cases hn : c.newest = some i <;> simp [valAt, ha, hn]

theorem get_state (c : Cache K V) (k : K) :
    (get c k).1.index = c.index ∧ (get c k).1.nextId = c.nextId ∧
    (get c k).1.size = c.size ∧ (get c k).1.maxSize = c.maxSize ∧
    (∀ j, valAt (get c k).1.arena j = valAt c.arena j) ∧
    (∀ j, liveAt (get c k).1.arena j = liveAt c.arena j) := by
  unfold get
  cases h : alk c.index k with
  | none => simp
  | some i =>
    cases ha : arenaGet c.arena i with
    | none => simp [ha]
    | some e =>
      by_cases hn : c.newest = some i
      · simp [ha, hn]
      · cases hnw : c.newest with
        | none =>
          cases hne : e.newer <;> cases hno : e.older <;>
            simp [ha, hnw, hne, hno, valAt_setOlder, valAt_setNewer, liveAt_setOlder,
                  liveAt_setNewer]
        | some m =>
          rw [hnw] at hn
          cases hne : e.newer <;> cases hno : e.older <;>
            simp [ha, hnw, hn, hne, hno, valAt_setOlder, valAt_setNewer, liveAt_setOlder,
                  liveAt_setNewer]

theorem get_miss (c : Cache K V) (k : K) (h : alk c.index k = none) :
    get c k = ({ c with misses := c.misses + 1 }, none) := by
  unfold get
  rw [h]

theorem get_hit_counters (c : Cache K V) (k : K) (i : Nat) (e : Entry K V)
    (h : alk c.index k = some i) (ha : arenaGet c.arena i = some e) :
    (get c k).1.hits = c.hits + 1 ∧ (get c k).1.misses = c.misses := by
  by_cases hn : c.newest = some i <;> simp [get, h, ha, hn]

/-! Behavior of put. -/

theorem putCore_spec (c : Cache K V) (k : K) (v : V) :
    (putCore c k v).1.maxSize = c.maxSize ∧
    (putCore c k v).1.nextId = c.nextId + 1 ∧
    (((putCore c k v).1.size = c.size ∧ c.size = c.maxSize) ∨
     ((putCore c k v).1.size = c.size + 1 ∧ c.size ≠ c.maxSize)) ∧
    (c.size ≠ c.maxSize → (putCore c k v).2 = none) ∧
    (∀ j, valAt (putCore c k v).1.arena j
        = valAt (aset c.arena c.nextId (Entry.mk k v c.newest none)) j) ∧
    (∀ j, liveAt (putCore c k v).1.arena j
        = liveAt (aset c.arena c.nextId (Entry.mk k v c.newest none)) j) ∧
    (putCore c k v).1.index
        = (match (putCore c k v).2 with
           | none => aset c.index k c.nextId
           | some re => adel (aset c.index k c.nextId) re.key) := by
  by_cases hsz : c.size = c.maxSize
  · cases hnw : c.newest with
    | none =>
      have hget : arenaGet (aset c.arena c.nextId (Entry.mk k v none none)) c.nextId
          = some (Entry.mk k v none none) := by
        simp [arenaGet, alk_aset]
      simp [putCore, hsz, hnw, hget, valAt_setOlder, valAt_setNewer, liveAt_setOlder,
            liveAt_setNewer]
    | some j =>
      cases ho : c.oldest with
      | none =>
        simp [putCore, hsz, hnw, ho, valAt_setNewer, liveAt_setNewer]
      | some rid =>
        cases hre : arenaGet
            (setNewer (aset c.arena c.nextId (Entry.mk k v (some j) none)) j (some c.nextId))
            rid with
        | none =>
          simp [putCore, hsz, hnw, ho, hre, valAt_setNewer, liveAt_setNewer]
        | some re =>
          cases hnn : re.newer with
          | none =>
            simp [putCore, hsz, hnw, ho, hre, hnn, valAt_setOlder, valAt_setNewer,
                  liveAt_setOlder, liveAt_setNewer]
          | some oid =>
            simp [putCore, hsz, hnw, ho, hre, hnn, valAt_setOlder, valAt_setNewer,
                  liveAt_setOlder, liveAt_setNewer]
  · cases hnw : c.newest with
    | none => simp [putCore, hsz, hnw]
    | some j => simp [putCore, hsz, hnw, valAt_setNewer, liveAt_setNewer]

/-! Preservation of the well-formedness invariant and of ghost agreement. -/

theorem putCore_inv (c : Cache K V) (k : K) (v : V) (hc : Inv c) : Inv (putCore c k v).1 := by
  obtain ⟨-, hnid, -, -, -, hlive, hidx⟩ := putCore_spec c k v
  intro k2 i hki
  rw [hidx] at hki
  have hmem : alk (aset c.index k c.nextId) k2 = some i := by
    cases hrem : (putCore c k v).2 with
    | none => rw [hrem] at hki; exact hki
    | some re =>
      rw [hrem] at hki
      rw [alk_adel] at hki
      by_cases hk2 : k2 = re.key
      · simp [hk2] at hki
      · rw [if_neg hk2] at hki; exact hki
  rw [alk_aset] at hmem
  by_cases hk : k2 = k
  · rw [if_pos hk] at hmem
    cases hmem
    constructor
    · rw [hnid]; omega
    · rw [hlive, liveAt_aset]; simp
  · rw [if_neg hk] at hmem
    obtain ⟨hlt, hlv⟩ := hc k2 i hmem
    constructor
    · rw [hnid]; omega
    · rw [hlive, liveAt_aset]
      by_cases hi : i = c.nextId
      · simp [hi]
      · simp [hi, hlv]

theorem putCore_sync (c : Cache K V) (g : List (K × V)) (k : K) (v : V)
    (hc : Inv c) (hs : Sync c g) :
    Sync (putCore c k v).1
      (match (putCore c k v).2 with
       | none => aset g k v
       | some re => adel (aset g k v) re.key) := by
  obtain ⟨-, -, -, -, hval, -, hidx⟩ := putCore_spec c k v
  intro k2
  unfold absMap
  rw [hidx]
  cases hrem : (putCore c k v).2 with
  | none =>
    rw [alk_aset, alk_aset]
    by_cases hk : k2 = k
    · rw [if_pos hk, if_pos hk]
      simp [hval, valAt_aset]
    · rw [if_neg hk, if_neg hk]
      rw [hs k2]
      unfold absMap
      cases hik : alk c.index k2 with
      | none => simp
      | some i =>
        obtain ⟨hlt, -⟩ := hc k2 i hik
        simp [hval, valAt_aset, Nat.ne_of_lt hlt]
  | some re =>
    rw [alk_adel, alk_adel]
    by_cases hkr : k2 = re.key
    · simp [hkr]
    · rw [if_neg hkr, if_neg hkr]
      rw [alk_aset, alk_aset]
      by_cases hk : k2 = k
      · rw [if_pos hk, if_pos hk]
        simp [hval, valAt_aset]
      · rw [if_neg hk, if_neg hk]
        rw [hs k2]
        unfold absMap
        cases hik : alk c.index k2 with
        | none => simp
        | some i =>
          obtain ⟨hlt, -⟩ := hc k2 i hik
          simp [hval, valAt_aset, Nat.ne_of_lt hlt]

theorem get_inv (c : Cache K V) (k : K) (hc : Inv c) : Inv (get c k).1 := by
  obtain ⟨hidx, hnid, -, -, -, hlive⟩ := get_state c k
  intro k2 i h
  rw [hidx] at h
  obtain ⟨hlt, hlv⟩ := hc k2 i h
  exact ⟨by rw [hnid]; exact hlt, by rw [hlive]; exact hlv⟩

theorem get_sync (c : Cache K V) (g : List (K × V)) (k : K) (hs : Sync c g) :
    Sync (get c k).1 g := by
  obtain ⟨hidx, -, -, -, hval, -⟩ := get_state c k
  intro k2
  rw [hs k2]
  unfold absMap
  rw [hidx]
  cases alk c.index k2 with
  | none => simp
  | some i => simp [hval]

theorem clearAll_inv (c : Cache K V) : Inv (clearAll c) := by
  intro k i h
  simp [clearAll, alk] at h

theorem clearAll_sync (c : Cache K V) : Sync (clearAll c) ([] : List (K × V)) := by
  intro k
  simp [clearAll, absMap, alk]

theorem gstep_inv_sync (cg : Cache K V × List (K × V)) (op : Op K V)
    (hc : Inv cg.1) (hs : Sync cg.1 cg.2) :
    Inv (gstep cg op).1 ∧ Sync (gstep cg op).1 (gstep cg op).2 := by
  cases op with
  | put k v =>
    exact ⟨putCore_inv cg.1 k v hc, putCore_sync cg.1 cg.2 k v hc hs⟩
  | get k =>
    exact ⟨get_inv cg.1 k hc, get_sync cg.1 cg.2 k hs⟩
  | peek k =>
    exact ⟨hc, hs⟩
  | clear =>
    exact ⟨clearAll_inv cg.1, clearAll_sync cg.1⟩

theorem runG_inv_sync (ops : List (Op K V)) :
    ∀ cg : Cache K V × List (K × V), Inv cg.1 → Sync cg.1 cg.2 →
      Inv (runG cg ops).1 ∧ Sync (runG cg ops).1 (runG cg ops).2 := by
  induction ops with
  | nil => intro cg hc hs; exact ⟨hc, hs⟩
  | cons op ops ih =>
    intro cg hc hs
    obtain ⟨hc2, hs2⟩ := gstep_inv_sync cg op hc hs
    exact ih (gstep cg op) hc2 hs2

theorem emptyCache_inv (m : Nat) : Inv (emptyCache K V m) := by
  intro k i h
  simp [emptyCache, alk] at h

theorem emptyCache_sync (m : Nat) : Sync (emptyCache K V m) ([] : List (K × V)) := by
  intro k
  simp [emptyCache, absMap, alk]

theorem step_inv (c : Cache K V) (op : Op K V) (hc : Inv c) : Inv (step c op) := by
  cases op with
  | put k v => exact putCore_inv c k v hc
  | get k => exact get_inv c k hc
  | peek k => exact hc
  | clear => exact clearAll_inv c

theorem run_inv (ops : List (Op K V)) : ∀ c : Cache K V, Inv c → Inv (run c ops) := by
  induction ops with
  | nil => intro c hc; exact hc
  | cons op ops ih => intro c hc; exact ih (step c op) (step_inv c op hc)

theorem step_cap (c : Cache K V) (op : Op K V) (h : c.size ≤ c.maxSize) :
    (step c op).size ≤ (step c op).maxSize ∧ (step c op).maxSize = c.maxSize := by
  cases op with
  | put k v =>
    obtain ⟨hmax, -, hsize, -, -, -, -⟩ := putCore_spec c k v
    simp only [step]
    refine ⟨?_, hmax⟩
    rcases hsize with ⟨h1, h2⟩ | ⟨h1, h2⟩
    · rw [h1, hmax]; exact h
    · rw [h1, hmax]; omega
  | get k =>
    obtain ⟨-, -, hsz, hmax, -, -⟩ := get_state c k
    simp only [step]
    rw [hsz, hmax]
    exact ⟨h, rfl⟩
  | peek k => exact ⟨h, rfl⟩
  | clear => simp [step, clearAll]

theorem run_cap (ops : List (Op K V)) :
    ∀ c : Cache K V, c.size ≤ c.maxSize →
      (run c ops).size ≤ (run c ops).maxSize ∧ (run c ops).maxSize = c.maxSize := by
  induction ops with
  | nil => intro c h; exact ⟨h, rfl⟩
  | cons op ops ih =>
    intro c h
    obtain ⟨h1, h2⟩ := step_cap c op h
    obtain ⟨h3, h4⟩ := ih (step c op) h1
    exact ⟨h3, h4.trans h2⟩

theorem effMaxSize_pos (cfg : Cfg) : 0 < effMaxSize cfg := by
  unfold effMaxSize
  rcases cfg with ⟨_ | _ | n⟩ <;> simp

theorem effMaxSize_some (m : Nat) (hm : 0 < m) : effMaxSize ⟨some m⟩ = m := by
  cases m with
  | zero => omega
  | succ n => rfl

theorem put_on_empty (d : Cache K V) (k : K) (v : V) (hsz : d.size = 0)
    (hnw : d.newest = none) (hh : d.hits = 0) (hms : d.misses = 0)
    (hpos : 0 < d.maxSize) :
    (put d k v).2 = none ∧ size (put d k v).1 = 1 ∧ keys (put d k v).1 = [k] ∧
    values (put d k v).1 = [v] ∧ hits (put d k v).1 = 0 ∧
    misses (put d k v).1 = 0 ∧ (put d k v).1.maxSize = d.maxSize := by
  have hne : d.size ≠ d.maxSize := by omega
  have h0 : (0 : Nat) ≠ d.maxSize := Nat.ne_of_lt hpos
  simp [put, putCore, hnw, hne, h0, size, keys, values, hits, misses, hsz, hh, hms,
        chainKeys, chainVals, arenaGet, alk_aset]

theorem chainCalls_eq_chainVals (a : List (Nat × Entry K V)) (ctx : Option C) :
    ∀ (fuel : Nat) (cur : Option Nat),
      chainCalls a ctx cur fuel = (chainVals a cur fuel).map (fun v => (ctx, v)) := by
  intro fuel
  induction fuel with
  | zero => intro cur; cases cur <;> simp [chainCalls, chainVals]
  | succ n ih =>
    intro cur
    cases cur with
    | none => simp [chainCalls, chainVals]
    | some i =>
      cases h : arenaGet a i with
      | none => simp [chainCalls, chainVals, h]
      | some e => simp [chainCalls, chainVals, h, ih]

/-! The claims. -/

/-- Claim C1: for every cache constructed with a positive integer maxSize,
size() is at most maxSize after every sequence of operations. -/
theorem capacity_invariant (m : Nat) (ops : List (Op K V)) (hm : 0 < m) :
    size (run (initLRU K V ⟨some m⟩) ops) ≤ m := by
  obtain ⟨h1, h2⟩ := run_cap ops (initLRU K V ⟨some m⟩) (by simp [initLRU, emptyCache])
  have hms : (initLRU K V ⟨some m⟩).maxSize = m := by
    rw [initLRU]
    simpa [emptyCache] using effMaxSize_some m hm
  rw [hms] at h2
  rw [h2] at h1
  exact h1

/-- Witness for C1 at maxSize 2 and three puts. -/
theorem capacity_invariant_witness :
    0 < 2 ∧ size (run (initLRU Nat Nat ⟨some 2⟩) [Op.put 0 1, Op.put 1 2, Op.put 2 3]) ≤ 2 :=
  ⟨by decide, capacity_invariant 2 [Op.put 0 1, Op.put 1 2, Op.put 2 3] (by decide)⟩

/-- Claim C2: with maxSize 2, after put(a,1), put(b,2), a get(a) returns 1,
and the following put(c,3) returns the evicted value 2, removes key b from
the index, keeps key a, and leaves keys() as c then a. -/
theorem get_promotes_recency :
    (get (run (initLRU Nat Nat ⟨some 2⟩) [Op.put 0 1, Op.put 1 2]) 0).2 = some 1 ∧
    (put (run (initLRU Nat Nat ⟨some 2⟩) [Op.put 0 1, Op.put 1 2, Op.get 0]) 2 3).2 = some 2 ∧
    alk (put (run (initLRU Nat Nat ⟨some 2⟩) [Op.put 0 1, Op.put 1 2, Op.get 0]) 2 3).1.index 1
      = none ∧
    (alk (put (run (initLRU Nat Nat ⟨some 2⟩) [Op.put 0 1, Op.put 1 2, Op.get 0]) 2 3).1.index 0
      ).isSome = true ∧
    keys (put (run (initLRU Nat Nat ⟨some 2⟩) [Op.put 0 1, Op.put 1 2, Op.get 0]) 2 3).1
      = [2, 0] := by
  decide

/-- Claim C3: with maxSize 2 and puts put(a,1), put(b,2), put(c,3), the third
put returns the evicted value 1 of the first key, and keys() is then c, b. -/
theorem lru_eviction_order :
    (put (run (initLRU Nat Nat ⟨some 2⟩) [Op.put 0 1, Op.put 1 2]) 2 3).2 = some 1 ∧
    keys (run (initLRU Nat Nat ⟨some 2⟩) [Op.put 0 1, Op.put 1 2, Op.put 2 3]) = [2, 1] := by
  decide

/-- Claim C4: for every operation sequence and every key whose most recent
put has not been erased by an eviction of that key or a clear (tracked by
the ghost map), get returns exactly that most recently put value. -/
theorem round_trip (cfg : Cfg) (ops : List (Op K V)) (k : K) (v : V)
    (h : alk (runG (initLRU K V cfg, []) ops).2 k = some v) :
    (get (runG (initLRU K V cfg, []) ops).1 k).2 = some v := by
  obtain ⟨-, hs⟩ :=
    runG_inv_sync ops (initLRU K V cfg, []) (emptyCache_inv (effMaxSize cfg))
      (emptyCache_sync (effMaxSize cfg))
  rw [get_snd, ← hs k, h]

/-- Witness for C4: one put, then get returns the put value. -/
theorem round_trip_witness :
    alk (runG (initLRU Nat Nat ⟨some 2⟩, []) [Op.put 0 5]).2 0 = some 5 ∧
    (get (runG (initLRU Nat Nat ⟨some 2⟩, []) [Op.put 0 5]).1 0).2 = some 5 :=
  ⟨by decide, round_trip ⟨some 2⟩ [Op.put 0 5] 0 5 (by decide)⟩

/-- Counterexample to C5: after put(0,10) and put(0,20) on a default cache,
size() is 2 while only one distinct inserted key is live (the ghost map has
the single binding of key 0), so size() exceeds the distinct live keys. -/
theorem size_exceeds_live_keys_cex :
    size (runG (initLRU Nat Nat ⟨none⟩, []) [Op.put 0 10, Op.put 0 20]).1 = 2 ∧
    (runG (initLRU Nat Nat ⟨none⟩, []) [Op.put 0 10, Op.put 0 20]).2 = [(0, 20)] ∧
    ¬ (size (runG (initLRU Nat Nat ⟨none⟩, []) [Op.put 0 10, Op.put 0 20]).1
        ≤ ((runG (initLRU Nat Nat ⟨none⟩, []) [Op.put 0 10, Op.put 0 20]).2).length) := by
  decide

/-- Amended C5: put on an already-present key when the cache is not full
still increments size() by 1 and evicts nothing, while the set of present
index keys is unchanged; hence size() counts chain nodes, not distinct live
keys, and can exceed the latter. -/
theorem duplicate_put_increments_size (c : Cache K V) (k : K) (v : V)
    (hk : (alk c.index k).isSome = true) (hsz : c.size ≠ c.maxSize) :
    (putCore c k v).1.size = c.size + 1 ∧ (putCore c k v).2 = none ∧
    ∀ k2, (alk (putCore c k v).1.index k2).isSome = (alk c.index k2).isSome := by
  obtain ⟨-, -, hsize, hrem, -, -, hidx⟩ := putCore_spec c k v
  have hr := hrem hsz
  refine ⟨?_, hr, ?_⟩
  · rcases hsize with ⟨-, h2⟩ | ⟨h1, -⟩
    · exact absurd h2 hsz
    · exact h1
  · intro k2
    rw [hidx, hr]
    simp only [alk_aset]
    by_cases h : k2 = k
    · subst h
      rw [if_pos rfl]
      simp [hk]
    · rw [if_neg h]

/-- Witness for the amended C5: a duplicate put on a non-full cache takes
size() from 1 to 2. -/
theorem duplicate_put_increments_size_witness :
    (putCore (run (initLRU Nat Nat ⟨none⟩) [Op.put 0 10]) 0 20).1.size
      = (run (initLRU Nat Nat ⟨none⟩) [Op.put 0 10]).size + 1 :=
  (duplicate_put_increments_size (run (initLRU Nat Nat ⟨none⟩) [Op.put 0 10]) 0 20
    (by decide) (by decide)).1

/-- Counterexample to C6: after put(0,5) the value stored for key 0 is 5,
yet peek returns the entry-object reference, not the value 5. -/
theorem peek_returns_entry_cex :
    absMap (run (initLRU Nat Nat ⟨some 4⟩) [Op.put 0 5]) 0 = some 5 ∧
    (peek (run (initLRU Nat Nat ⟨some 4⟩) [Op.put 0 5]) 0).2 = JSValue.entryRef 0 ∧
    (peek (run (initLRU Nat Nat ⟨some 4⟩) [Op.put 0 5]) 0).2 ≠ JSValue.value 5 := by
  decide

/-- Amended C6: peek returns the raw cache entry reference for the key (the
absent sentinel when the key is missing) whose value field is the stored
value, and mutates nothing: the whole cache state, hence recency order,
index, size, hits and misses, is returned unchanged. -/
theorem peek_no_mutation (c : Cache K V) (k : K) :
    (peek c k).1 = c ∧ resolveValue c (peek c k).2 = absMap c k := by
  refine ⟨rfl, ?_⟩
  unfold peek resolveValue absMap
  cases h : alk c.index k <;> simp [valAt]

/-- Counterexample to C7: calling the factory without a configuration object
skips initLRU entirely, so no cache with maxSize 4 results. -/
theorem create_without_config_cex :
    create Nat Nat none = none ∧ (create Nat Nat none).map Cache.maxSize ≠ some 4 := by
  decide

/-- Amended C7: when a configuration object is supplied, maxSize defaults
to 4 when the option is absent or falsy and otherwise equals the supplied
positive integer, and the fresh cache has size, hits and misses all 0; when
the configuration itself is omitted, create returns an uninitialized
object instead. -/
theorem create_with_config (cfg : Cfg) :
    ((cfg.maxSize = none ∨ cfg.maxSize = some 0) →
      (create K V (some cfg)).map Cache.maxSize = some 4) ∧
    (∀ n, 0 < n → cfg.maxSize = some n →
      (create K V (some cfg)).map Cache.maxSize = some n) ∧
    (create K V (some cfg)).map size = some 0 ∧
    (create K V (some cfg)).map hits = some 0 ∧
    (create K V (some cfg)).map misses = some 0 := by
  refine ⟨?_, ?_, rfl, rfl, rfl⟩
  · rintro (h | h) <;> simp [create, initLRU, emptyCache, effMaxSize, h]
  · intro n hn h
    simp [create, initLRU, emptyCache, effMaxSize, h]
    cases n with
    | zero => omega
    | succ n2 => simp

/-- Witness for the amended C7 at a supplied maxSize of 3. -/
theorem create_with_config_witness :
    (create Nat Nat (some ⟨some 3⟩)).map Cache.maxSize = some 3 :=
  (create_with_config ⟨some 3⟩).2.1 3 (by decide) rfl

/-- Claim C8: in every reachable cache state, get on an absent key only
increments misses and returns the absent sentinel, leaving everything else
(index, chain, size, hits) unchanged, while get on a present key increments
hits by exactly 1 and leaves misses unchanged. -/
theorem hit_miss_accounting (cfg : Cfg) (ops : List (Op K V)) (k : K) :
    (alk (run (initLRU K V cfg) ops).index k = none →
      get (run (initLRU K V cfg) ops) k
        = ({ run (initLRU K V cfg) ops with
             misses := (run (initLRU K V cfg) ops).misses + 1 }, none)) ∧
    (alk (run (initLRU K V cfg) ops).index k ≠ none →
      (get (run (initLRU K V cfg) ops) k).1.hits = (run (initLRU K V cfg) ops).hits + 1 ∧
      (get (run (initLRU K V cfg) ops) k).1.misses = (run (initLRU K V cfg) ops).misses) := by
  constructor
  · intro h
    exact get_miss (run (initLRU K V cfg) ops) k h
  · intro h
    cases hik : alk (run (initLRU K V cfg) ops).index k with
    | none => exact absurd hik h
    | some i =>
      have hinv := run_inv ops (initLRU K V cfg) (emptyCache_inv (effMaxSize cfg))
      obtain ⟨-, hlv⟩ := hinv k i hik
      rw [liveAt] at hlv
      cases ha : arenaGet (run (initLRU K V cfg) ops).arena i with
      | none => rw [ha] at hlv; simp at hlv
      | some e => exact get_hit_counters (run (initLRU K V cfg) ops) k i e hik ha

/-- Witness for C8: a hit bumps hits by one. -/
theorem hit_miss_accounting_witness :
    (get (run (initLRU Nat Nat ⟨some 2⟩) [Op.put 0 1]) 0).1.hits
      = (run (initLRU Nat Nat ⟨some 2⟩) [Op.put 0 1]).hits + 1 :=
  ((hit_miss_accounting ⟨some 2⟩ [Op.put 0 1] 0).2 (by decide)).1

/-- Claim C9: after any operation sequence, clear resets size, hits, misses
and keys while preserving maxSize, and a subsequent put behaves, in every
observable (returned value, size, keys, values, hits, misses, maxSize),
exactly as a put on a freshly constructed cache of the same maxSize. -/
theorem clear_resets (cfg : Cfg) (ops : List (Op K V)) :
    size (clearAll (run (initLRU K V cfg) ops)) = 0 ∧
    hits (clearAll (run (initLRU K V cfg) ops)) = 0 ∧
    misses (clearAll (run (initLRU K V cfg) ops)) = 0 ∧
    keys (clearAll (run (initLRU K V cfg) ops)) = [] ∧
    (clearAll (run (initLRU K V cfg) ops)).maxSize = (run (initLRU K V cfg) ops).maxSize ∧
    ∀ k v,
      (put (clearAll (run (initLRU K V cfg) ops)) k v).2
        = (put (emptyCache K V (run (initLRU K V cfg) ops).maxSize) k v).2 ∧
      size (put (clearAll (run (initLRU K V cfg) ops)) k v).1
        = size (put (emptyCache K V (run (initLRU K V cfg) ops).maxSize) k v).1 ∧
      keys (put (clearAll (run (initLRU K V cfg) ops)) k v).1
        = keys (put (emptyCache K V (run (initLRU K V cfg) ops).maxSize) k v).1 ∧
      values (put (clearAll (run (initLRU K V cfg) ops)) k v).1
        = values (put (emptyCache K V (run (initLRU K V cfg) ops).maxSize) k v).1 ∧
      hits (put (clearAll (run (initLRU K V cfg) ops)) k v).1
        = hits (put (emptyCache K V (run (initLRU K V cfg) ops).maxSize) k v).1 ∧
      misses (put (clearAll (run (initLRU K V cfg) ops)) k v).1
        = misses (put (emptyCache K V (run (initLRU K V cfg) ops).maxSize) k v).1 ∧
      (put (clearAll (run (initLRU K V cfg) ops)) k v).1.maxSize
        = (put (emptyCache K V (run (initLRU K V cfg) ops).maxSize) k v).1.maxSize := by
  have hpos : 0 < (run (initLRU K V cfg) ops).maxSize := by
    obtain ⟨-, h2⟩ := run_cap ops (initLRU K V cfg) (by simp [initLRU, emptyCache])
    rw [h2, initLRU]
    exact effMaxSize_pos cfg
  refine ⟨rfl, rfl, rfl, by simp [keys, clearAll, chainKeys], rfl, ?_⟩
  intro k v
  obtain ⟨ha1, ha2, ha3, ha4, ha5, ha6, ha7⟩ :=
    put_on_empty (clearAll (run (initLRU K V cfg) ops)) k v rfl rfl rfl rfl hpos
  obtain ⟨hb1, hb2, hb3, hb4, hb5, hb6, hb7⟩ :=
    put_on_empty (emptyCache K V (run (initLRU K V cfg) ops).maxSize) k v rfl rfl rfl rfl hpos
  exact ⟨ha1.trans hb1.symm, ha2.trans hb2.symm, ha3.trans hb3.symm, ha4.trans hb4.symm,
         ha5.trans hb5.symm, ha6.trans hb6.symm, ha7.trans hb7.symm⟩

/-- Claim C10: forEach performs one visitor invocation per chain node in
newest-to-oldest order, each invocation receiving the supplied context as
its bound receiver and exactly the entry value as its sole argument: the
invocation trace is precisely the values list paired with the context. -/
theorem forEach_visits_values (c : Cache K V) (ctx : Option C) :
    forEach c ctx = (values c).map (fun v => (ctx, v)) := by
  unfold forEach values
  exact chainCalls_eq_chainVals c.arena ctx c.arena.length c.newest

end LRUCache
